import Mathlib

/-!
# Verification of the transcript segmentation engine

Shallow embedding of the core of `transcript_utils.py` from the
youtube-quote-extractor repository: timestamp codec, input parser, window
planner, segment extractor and chunk stitcher, together with proofs of the
specification claims about them.

Conventions of the embedding:
* Python `str` values are modelled as `String` / `List Char`; text is
  processed character by character exactly as the source's regexes do
  (the regexes involved are all deterministic, so they are compiled to
  straight-line character matchers; `\d` and `\s` are modelled by the
  ASCII `Char.isDigit` / `Char.isWhitespace`, which agree with Python on
  all inputs the pipeline produces).
* Python `int` is modelled as `Int`; Python's floor division `//` and
  modulus `%` are `Int.fdiv` / `Int.fmod`, which follow the same
  rounding convention.
* Code that can raise (`int(..)` on malformed text, index errors) is
  modelled with `Option`: `none` is a raised exception.
-/

/-! ## Character-level primitives -/

/-- Model of Python `str.strip()` (also used for the `\s` stripping steps):
drop whitespace from both ends of a character list. -/
def trimChars (cs : List Char) : List Char :=
  ((cs.dropWhile Char.isWhitespace).reverse.dropWhile Char.isWhitespace).reverse

/-- Model of Python `str.split(sep)` for a single-character separator:
splits into the (always non-empty) list of fragments between occurrences
of `sep`, keeping empty fragments, e.g. `"a::b" ↦ ["a", "", "b"]`. -/
def splitCharsOn (sep : Char) : List Char → List (List Char)
  | [] => [[]]
  | c :: rest =>
    match splitCharsOn sep rest with
    | [] => [[]]
    | g :: gs => if c = sep then [] :: g :: gs else (c :: g) :: gs

/-- Numeric value of a decimal digit character. -/
def digitVal (c : Char) : Nat :=
  c.toNat - '0'.toNat

/-- Value of a list of decimal digit characters, most significant first. -/
def digitsVal (cs : List Char) : Nat :=
  cs.foldl (fun n c => n * 10 + digitVal c) 0

/-- Model of Python `int(text)` on the strings this pipeline can feed it:
optional surrounding whitespace, an optional sign, then one or more ASCII
decimal digits; anything else raises (`none`).  (Python's `int` also
accepts underscore separators and non-ASCII digits; no caller in this
code base can produce those.) -/
def pyIntOf (cs0 : List Char) : Option Int :=
  match trimChars cs0 with
  | [] => none
  | c :: rest =>
    if c = '-' then
      if rest ≠ [] ∧ rest.all Char.isDigit then some (-(digitsVal rest : Nat)) else none
    else if c = '+' then
      if rest ≠ [] ∧ rest.all Char.isDigit then some ((digitsVal rest : Nat)) else none
    else if (c :: rest).all Char.isDigit then some ((digitsVal (c :: rest) : Nat)) else none

/-- Model of Python `list(map(int, parts))`: converts every fragment,
raising (`none`) at the first non-numeric fragment. -/
def mapIntParts : List (List Char) → Option (List Int)
  | [] => some []
  | p :: rest =>
    match pyIntOf p with
    | none => none
    | some v =>
      match mapIntParts rest with
      | none => none
      | some vs => some (v :: vs)

/-- The decimal digit characters, as rendered by Python's `str`/format. -/
def digitOfNat (d : Nat) : Char :=
  match d with
  | 0 => '0' | 1 => '1' | 2 => '2' | 3 => '3' | 4 => '4'
  | 5 => '5' | 6 => '6' | 7 => '7' | 8 => '8' | 9 => '9'
  | _ => '*'

/-- Decimal rendering of a natural number, most significant digit first.
The fuel argument (always called with `n + 1 > n`) only forces structural
recursion; it never runs out. -/
def decDigitsAux : Nat → Nat → List Char
  | 0, _ => []
  | fuel + 1, n =>
    if n < 10 then [digitOfNat n]
    else decDigitsAux fuel (n / 10) ++ [digitOfNat (n % 10)]

/-- Model of Python's decimal rendering of an `int` (`str` / `%d`). -/
def intReprChars (x : Int) : List Char :=
  if x < 0 then '-' :: decDigitsAux (x.natAbs + 1) x.natAbs
  else decDigitsAux (x.toNat + 1) x.toNat

/-- Model of Python's `f"{x:02d}"`: pad the rendering to width 2 with a
leading `'0'` (a sign counts towards the width, as in Python). -/
def pad2Chars (x : Int) : List Char :=
  if (intReprChars x).length < 2 then '0' :: intReprChars x else intReprChars x

/-! ## TimestampCodec: `parse_timestamp_to_seconds` and the `repl` formatter -/

/-- The `TimestampInfo` dataclass from `transcript_utils.py`. -/
structure TimestampInfo where
  timestamp : String
  description : String := ""
deriving DecidableEq, Repr

/-- Function `parse_timestamp_to_seconds` (transcript_utils.py lines 63-69):
split on `:`; 3 parts are `H:MM:SS`, 2 parts are `MM:SS`, any other
count yields `0`; a non-numeric part raises (`none`). -/
def parse_timestamp_to_seconds (timestamp : String) : Option Int :=
  match mapIntParts (splitCharsOn ':' timestamp.data) with
  | none => none
  | some [h, m, s] => some (h * 3600 + m * 60 + s)
  | some [m, s] => some (m * 60 + s)
  | some _ => some 0

/-- The window computation of `get_transcript_segment` (transcript_utils.py
lines 115-131): `target` is the anchor's parsed seconds; the last anchor
uses the full `manual_context_limit_sec`, any other anchor is capped by
the distance to the *next positional* anchor; the start is clamped to 0,
the end is `target + after` (no clamp).  `none` models an index error or
a parse failure. -/
def computeWindow (all_timestamps : List TimestampInfo) (i : Nat)
    (manual_context_limit_sec context_before_sec : Int) : Option (Int × Int) :=
  match all_timestamps[i]? with
  | none => none
  | some cur =>
    match parse_timestamp_to_seconds cur.timestamp with
    | none => none
    | some target =>
      if i = all_timestamps.length - 1 then
        some (max 0 (target - context_before_sec), target + manual_context_limit_sec)
      else
        match all_timestamps[i + 1]? with
        | none => none
        | some nxt =>
          match parse_timestamp_to_seconds nxt.timestamp with
          | none => none
          | some nextTarget =>
            some (max 0 (target - context_before_sec),
              target + min (nextTarget - target) manual_context_limit_sec)

/-- Body of the bracketed timestamp produced by `repl` inside
`adjust_transcript_timestamps` (lines 156-162): `HH:MM:SS` when the hours
component is positive, else `MM:SS`, every field through `f"{..:02d}"`. -/
def formatBodyChars (total_sec : Int) : List Char :=
  let h := total_sec.fdiv 3600
  let m := (total_sec.fmod 3600).fdiv 60
  let s := total_sec.fmod 60
  if 0 < h then pad2Chars h ++ ':' :: pad2Chars m ++ ':' :: pad2Chars s
  else pad2Chars m ++ ':' :: pad2Chars s

/-- The bracket-stripped text rendered by the `repl` formatter. -/
def formatBody (total_sec : Int) : String :=
  String.mk (formatBodyChars total_sec)

/-- The full replacement text returned by `repl`: the body in brackets. -/
def formatFromSeconds (total_sec : Int) : String :=
  String.mk ('[' :: formatBodyChars total_sec ++ [']'])

/-! ## The bracketed-timestamp regex `\[(\d{1,2}:\d{2}(?::\d{2})?)\]`

`matchTsAfterBracket cs` matches the regex body (after a consumed `'['`)
against a prefix of `cs`, returning the capture group and the remainder
after the closing bracket.  The regex is deterministic: the hour field
takes two digits exactly when the second character is a digit (a shorter
match would then need `':'` in a digit position), and the optional
`(?::\d{2})?` group commits as soon as a `':'` follows the minutes. -/

/-- Matches `(?::\d{2})?\]` after the first two fields `ds ++ ":" ++ m1 m2`. -/
def tsTailMatch (ds : List Char) (m1 m2 : Char) (rest : List Char) :
    Option (List Char × List Char) :=
  match rest with
  | ':' :: s1 :: s2 :: ']' :: r2 =>
    if s1.isDigit && s2.isDigit then some (ds ++ [':', m1, m2, ':', s1, s2], r2) else none
  | ']' :: r2 => some (ds ++ [':', m1, m2], r2)
  | _ => none

/-- Matches `\d{1,2}:\d{2}(?::\d{2})?\]`, returning capture group and rest.
The hour field is one digit exactly when the second character is `':'`. -/
def matchTsAfterBracket (cs : List Char) : Option (List Char × List Char) :=
  match cs with
  | c1 :: c2 :: rest2 =>
    if c2 = ':' then
      match rest2 with
      | m1 :: m2 :: rest =>
        if c1.isDigit && m1.isDigit && m2.isDigit then tsTailMatch [c1] m1 m2 rest else none
      | _ => none
    else
      match rest2 with
      | c3 :: m1 :: m2 :: rest =>
        if c3 = ':' then
          if c1.isDigit && c2.isDigit && m1.isDigit && m2.isDigit then
            tsTailMatch [c1, c2] m1 m2 rest
          else none
        else none
      | _ => none
  | _ => none

/-- The leading-marker test of `get_transcript_segment` (line 134):
`re.search(r'^\[(\d{1,2}:\d{2}(?::\d{2})?)\]', line)`, returning group 1. -/
def leadingMarker (cs : List Char) : Option (List Char) :=
  match cs with
  | '[' :: rest => (matchTsAfterBracket rest).map Prod.fst
  | _ => none

/-! ## `adjust_transcript_timestamps` (lines 148-163) -/

/-- The arithmetic of `repl` (lines 150-155) followed by re-rendering: the
captured group is split on `:`, summed as `H:MM:SS` for 3 parts and as
`MM:SS` otherwise (Python's `else` branch reads `parts[0]` and `parts[1]`,
so fewer than 2 parts would raise), then the offset is added. -/
def replSeconds (group : List Char) (offset_sec : Int) : Option Int :=
  match mapIntParts (splitCharsOn ':' group) with
  | none => none
  | some [h, m, s] => some (h * 3600 + m * 60 + s + offset_sec)
  | some (m :: s :: _) => some (m * 60 + s + offset_sec)
  | some _ => none

/-- Model of `re.sub` with the bracketed-timestamp pattern: scan left to
right; at each `'['` try the match, replace it by the re-rendered
timestamp and continue after it.  The fuel (always the length of the
scanned list, which bounds the number of scan steps) only forces
structural recursion. -/
def subTsAux (offset_sec : Int) : Nat → List Char → Option (List Char)
  | 0, cs => some cs
  | _ + 1, [] => some []
  | fuel + 1, c :: rest =>
    if c = '[' then
      match matchTsAfterBracket rest with
      | some (g, rest2) =>
        match replSeconds g offset_sec with
        | none => none
        | some total =>
          (subTsAux offset_sec fuel rest2).map (fun t => (formatFromSeconds total).data ++ t)
      | none => (subTsAux offset_sec fuel rest).map (c :: ·)
    else (subTsAux offset_sec fuel rest).map (c :: ·)

/-- Function `adjust_transcript_timestamps` (lines 148-163): rewrite every embedded
`[timestamp]` by adding `offset_sec` and re-rendering. -/
def adjust_transcript_timestamps (transcript : String) (offset_sec : Int) : Option String :=
  (subTsAux offset_sec transcript.data.length transcript.data).map String.mk

/-! ## SegmentExtractor: the line-selection loop of `get_transcript_segment` -/

/-- The decomposition `raw.strip().split('\n')`, the line decomposition used by both the
segment extractor (line 133) and the stitcher (line 269). -/
def pyLines (t : String) : List String :=
  (splitCharsOn '\n' (trimChars t.data)).map String.mk

/-- The `for line in ...` loop of `get_transcript_segment` (lines 132-139):
keep lines with a leading bracketed marker whose parsed value lies in
`[start_time, end_time]` (inclusive).  A marker whose parse raises
propagates as `none` (unreachable: captured groups always parse). -/
def segmentLinesLoop (start_time end_time : Int) : List String → Option (List String)
  | [] => some []
  | line :: rest =>
    match leadingMarker line.data with
    | none => segmentLinesLoop start_time end_time rest
    | some g =>
      match parse_timestamp_to_seconds (String.mk g) with
      | none => none
      | some v =>
        if start_time ≤ v ∧ v ≤ end_time then
          (segmentLinesLoop start_time end_time rest).map (line :: ·)
        else segmentLinesLoop start_time end_time rest

/-- The spec's line-inclusion predicate, written from the spec's words: a
line is in the window iff it has a leading bracketed marker whose parsed
second value `v` satisfies `start ≤ v ≤ end`, both ends inclusive. -/
def lineInWindow (start_time end_time : Int) (line : String) : Bool :=
  match leadingMarker line.data with
  | some g =>
    match parse_timestamp_to_seconds (String.mk g) with
    | some v => decide (start_time ≤ v) && decide (v ≤ end_time)
    | none => false
  | none => false

/-- Lines 132-145 of `get_transcript_segment`: select the window's lines
and join them with newlines (empty text when nothing matches). -/
def extractSegmentText (raw_transcript : String) (start_time end_time : Int) : Option String :=
  (segmentLinesLoop start_time end_time (pyLines raw_transcript)).map (String.intercalate "\n")

/-- Function `get_transcript_segment` (lines 108-145): window computation followed
by line selection. -/
def get_transcript_segment (raw_transcript : String) (current_timestamp_index : Nat)
    (all_timestamps : List TimestampInfo)
    (manual_context_limit_sec context_before_sec : Int) : Option String :=
  match computeWindow all_timestamps current_timestamp_index
      manual_context_limit_sec context_before_sec with
  | none => none
  | some (st, en) => extractSegmentText raw_transcript st en

/-! ## ChunkStitcher: the stitching loop of `transcribe_audio_with_chunking` -/

/-- One chunk's surviving lines: `[line for line in lines if line not in
prev_lines]` (line 270).  `prev` is the set of previously seen lines,
modelled as a list queried only through membership. -/
def newLinesOf (prev : List String) (t : String) : List String :=
  (pyLines t).filter (fun l => !prev.contains l)

/-- The stitching loop (lines 266-272), recorded chunk by chunk: each
chunk keeps the lines not seen before, and only then are its kept lines
added to the seen set (`prev_lines.update(new_lines)` runs after the
whole chunk is filtered). -/
def stitchKept (prev : List String) : List String → List (List String)
  | [] => []
  | t :: rest => newLinesOf prev t :: stitchKept (prev ++ newLinesOf prev t) rest

/-- Lines 266-274: the stitched transcript is the concatenation of every
chunk's surviving lines, joined with newlines. -/
def stitchTranscripts (transcripts : List String) : String :=
  String.intercalate "\n" (stitchKept [] transcripts).flatten

/-! ## InputParser: `parse_input` (lines 30-60) -/

/-- The URL regex `https?://[^\s]+` tried at one position: the literal
scheme (the `s?` alternative is deterministic because `'s' ≠ ':'`),
`"://"`, then a non-empty maximal run of non-whitespace. -/
def matchUrlAt (cs : List Char) : Option (List Char) :=
  match cs with
  | 'h' :: 't' :: 't' :: 'p' :: 's' :: ':' :: '/' :: '/' :: rest =>
    if (rest.takeWhile (fun c => !c.isWhitespace)).isEmpty then none
    else some (['h', 't', 't', 'p', 's', ':', '/', '/'] ++ rest.takeWhile (fun c => !c.isWhitespace))
  | 'h' :: 't' :: 't' :: 'p' :: ':' :: '/' :: '/' :: rest =>
    if (rest.takeWhile (fun c => !c.isWhitespace)).isEmpty then none
    else some (['h', 't', 't', 'p', ':', '/', '/'] ++ rest.takeWhile (fun c => !c.isWhitespace))
  | _ => none

/-- Model of `url_pattern.search(line)`: the leftmost match of the URL regex. -/
def searchUrl : List Char → Option (List Char)
  | [] => none
  | c :: rest =>
    match matchUrlAt (c :: rest) with
    | some m => some m
    | none => searchUrl rest

/-- The optional `(?:\s*-\s*(.*))?` tail of the timestamp-line regex:
whitespace, a dash, whitespace, then the rest of the line as group 2;
`none` is an absent group. -/
def tsLineDesc (rest : List Char) : Option (List Char) :=
  match rest.dropWhile Char.isWhitespace with
  | '-' :: r2 => some (r2.dropWhile Char.isWhitespace)
  | _ => none

/-- Model of `timestamp_pattern.match(line)` with `^(\d{1,2}:\d{2})(?:\s*-\s*(.*))?`:
anchored at the line start; returns (group 1, optional group 2). -/
def timestampMatch (cs : List Char) : Option (List Char × Option (List Char)) :=
  match cs with
  | c1 :: c2 :: rest2 =>
    if c2 = ':' then
      match rest2 with
      | m1 :: m2 :: rest =>
        if c1.isDigit && m1.isDigit && m2.isDigit then some ([c1, ':', m1, m2], tsLineDesc rest)
        else none
      | _ => none
    else
      match rest2 with
      | c3 :: m1 :: m2 :: rest =>
        if c3 = ':' then
          if c1.isDigit && c2.isDigit && m1.isDigit && m2.isDigit then
            some ([c1, c2, ':', m1, m2], tsLineDesc rest)
          else none
        else none
      | _ => none
  | _ => none

/-- Lines 50-59: build the `TimestampInfo` from the two capture groups
(`group(1).strip()`, and `group(2).strip()` when present, else `""`). -/
def recordOfGroups (g : List Char × Option (List Char)) : TimestampInfo :=
  { timestamp := String.mk (trimChars g.1)
    description := String.mk (match g.2 with | some d => trimChars d | none => []) }

/-- The `for line in lines` loop of `parse_input` (lines 40-59), carrying
the current URL and accumulated records: strip the line, skip it when
empty; when it contains a URL and no URL was consumed yet, consume it as
the URL; otherwise test it against the timestamp pattern. -/
def parse_input_aux (url : Option (List Char)) (acc : List TimestampInfo) :
    List (List Char) → Option (List Char) × List TimestampInfo
  | [] => (url, acc)
  | line :: rest =>
    if (trimChars line).isEmpty then parse_input_aux url acc rest
    else
      match searchUrl (trimChars line), url with
      | some u, none => parse_input_aux (some u) acc rest
      | _, _ =>
        match timestampMatch (trimChars line) with
        | some g => parse_input_aux url (acc ++ [recordOfGroups g]) rest
        | none => parse_input_aux url acc rest

/-- Function `parse_input` (lines 30-60). -/
def parse_input (text_block : String) : Option String × List TimestampInfo :=
  let r := parse_input_aux none [] (splitCharsOn '\n' (trimChars text_block.data))
  (r.1.map String.mk, r.2)

/-! ## Spec-side characterizations (written from the spec's words, to be
compared with the source-translated functions above) -/

/-- The stripped, non-empty lines of the input block, in order. -/
def processedLines (text : String) : List (List Char) :=
  ((splitCharsOn '\n' (trimChars text.data)).map trimChars).filter (fun l => !l.isEmpty)

/-- Spec: "First line matching a URL pattern becomes `url`". -/
def firstUrlMatch : List (List Char) → Option (List Char)
  | [] => none
  | l :: rest =>
    match searchUrl l with
    | some u => some u
    | none => firstUrlMatch rest

/-- Remove exactly the first URL-containing line (the one consumed as the
URL); every other line, including later URL-containing ones, remains. -/
def dropFirstUrlLine : List (List Char) → List (List Char)
  | [] => []
  | l :: rest => if (searchUrl l).isSome then rest else l :: dropFirstUrlLine rest

/-- The timestamp records contributed by a list of lines. -/
def recordsOfLines (lines : List (List Char)) : List TimestampInfo :=
  lines.filterMap (fun l => (timestampMatch l).map recordOfGroups)

/-- A timestamp of exactly two colon-separated fields matching
`\d{1,2}:\d{2}` (the only shape `parse_input` can produce). -/
def shortTsShape (s : String) : Bool :=
  match s.data with
  | [a, ':', b, c] => a.isDigit && b.isDigit && c.isDigit
  | [a, b, ':', c, d] => a.isDigit && b.isDigit && c.isDigit && d.isDigit
  | _ => false

/-- The character facts needed about rendered decimal digits. -/
def digitCharFacts (c : Char) : Prop :=
  c.isDigit = true ∧ c.isWhitespace = false ∧ c ≠ ':' ∧ c ≠ '-' ∧ c ≠ '+'

/-! ## Helper lemmas -/

theorem mapIntParts_eq_none_iff (ps : List (List Char)) :
    mapIntParts ps = none ↔ ∃ p ∈ ps, pyIntOf p = none := by
  induction ps with
  | nil => simp [mapIntParts]
  | cons p rest ih =>
    simp only [mapIntParts]
    cases hp : pyIntOf p with
    | none => simp [hp]
    | some v =>
      cases hr : mapIntParts rest with
      | none =>
        simp only [hr] at ih
        simp [hp, ih.mp trivial]
      | some vs =>
        simp only [hr] at ih
        simp only [List.mem_cons, exists_eq_or_imp, hp]
        simp [← ih, hr]

/-! ## Claim 1: the window formulas of `computeWindow` -/

/-- C1: for an in-range anchor index and non-negative limits, the window
is `[max 0 (target - before), target + after]` where `after` is the full
ceiling for the last record and `min (nextTarget - target) maxAfter`
otherwise, `nextTarget` taken from the *next positional* record. -/
theorem claim1_computeWindow (all : List TimestampInfo) (i : Nat)
    (maxAfter before target : Int) (hi : i < all.length)
    (hm : 0 ≤ maxAfter) (hb : 0 ≤ before)
    (ht : parse_timestamp_to_seconds (all.get ⟨i, hi⟩).timestamp = some target) :
    (i = all.length - 1 →
      computeWindow all i maxAfter before
        = some (max 0 (target - before), target + maxAfter)) ∧
    ∀ (hi2 : i + 1 < all.length) (nextTarget : Int),
      parse_timestamp_to_seconds (all.get ⟨i + 1, hi2⟩).timestamp = some nextTarget →
      computeWindow all i maxAfter before
        = some (max 0 (target - before), target + min (nextTarget - target) maxAfter) := by
  have h1 : all[i]? = some (all.get ⟨i, hi⟩) := by
    rw [List.getElem?_eq_getElem hi, List.get_eq_getElem]
  constructor
  · intro hlast
    simp only [computeWindow, h1, ht, if_pos hlast]
  · intro hi2 nextTarget hnx
    have h2 : all[i + 1]? = some (all.get ⟨i + 1, hi2⟩) := by
      rw [List.getElem?_eq_getElem hi2, List.get_eq_getElem]
    have hne : ¬ i = all.length - 1 := by omega
    simp only [computeWindow, h1, ht, if_neg hne, h2, hnx]

/-- Witness for C1 at the spec's own example: records `1:00`, `2:00`,
anchor 0, ceiling 120, margin 30 gives the window `[30, 120]`. -/
theorem claim1_computeWindow_witness :
    computeWindow [⟨"1:00", ""⟩, ⟨"2:00", ""⟩] 0 120 30 = some (30, 120) := by
  have h := (claim1_computeWindow [⟨"1:00", ""⟩, ⟨"2:00", ""⟩] 0 120 30 60
    (by decide) (by decide) (by decide) (by decide)).2 (by decide) 120 (by decide)
  exact h.trans (by decide)

/-! ## Claim 2: the code does not clamp `afterSeconds` -/

/-- C2 (code bug): with out-of-order anchors `1:00`, `0:10`, anchor 0,
ceiling 120 and margin 0, the code computes the window `(60, 10)`,
whose end is *less* than its start: `max 0 afterSeconds` is never
applied, contradicting the claimed `end_seconds >= start_seconds`. -/
theorem claim2_computeWindow_no_clamp :
    computeWindow [⟨"1:00", ""⟩, ⟨"0:10", ""⟩] 0 120 0 = some (60, 10) ∧
    (10 : Int) < 60 :=
  ⟨by decide, by decide⟩

/-! ## Claim 7: case analysis of `parse_timestamp_to_seconds` -/

/-- C7: two numeric parts give `m*60+s`, three give `h*3600+m*60+s`
(so `"1:30" ↦ 90` and `"01:02:03" ↦ 3723`), any other all-numeric part
count gives `0`, and the parse raises exactly when some part is
non-numeric. -/
theorem claim7_parse_timestamp_cases :
    parse_timestamp_to_seconds "1:30" = some 90 ∧
    parse_timestamp_to_seconds "01:02:03" = some 3723 ∧
    (∀ (s : String) (a b : Int),
      mapIntParts (splitCharsOn ':' s.data) = some [a, b] →
      parse_timestamp_to_seconds s = some (a * 60 + b)) ∧
    (∀ (s : String) (a b c : Int),
      mapIntParts (splitCharsOn ':' s.data) = some [a, b, c] →
      parse_timestamp_to_seconds s = some (a * 3600 + b * 60 + c)) ∧
    (∀ (s : String) (parts : List Int),
      mapIntParts (splitCharsOn ':' s.data) = some parts →
      parts.length ≠ 2 → parts.length ≠ 3 →
      parse_timestamp_to_seconds s = some 0) ∧
    (∀ s : String, parse_timestamp_to_seconds s = none ↔
      ∃ p ∈ splitCharsOn ':' s.data, pyIntOf p = none) := by
  refine ⟨by decide, by decide, ?_, ?_, ?_, ?_⟩
  · intro s a b h
    simp only [parse_timestamp_to_seconds, h]
  · intro s a b c h
    simp only [parse_timestamp_to_seconds, h]
  · intro s parts h h2 h3
    simp only [parse_timestamp_to_seconds, h]
    match parts, h2, h3 with
    | [], _, _ => rfl
    | [a], _, _ => rfl
    | [a, b], h2, _ => exact absurd rfl h2
    | [a, b, c], _, h3 => exact absurd rfl h3
    | a :: b :: c :: d :: rest, _, _ => rfl
  · intro s
    rw [← mapIntParts_eq_none_iff]
    cases m : mapIntParts (splitCharsOn ':' s.data) with
    | none => simp [parse_timestamp_to_seconds, m]
    | some l =>
      simp only [parse_timestamp_to_seconds, m]
      match l with
      | [] => simp
      | [a] => simp
      | [a, b] => simp
      | [a, b, c] => simp
      | a :: b :: c :: d :: rest => simp

/-- Witness for C7 at `"2:05"`, via the two-part case. -/
theorem claim7_witness : parse_timestamp_to_seconds "2:05" = some 125 := by
  have h := claim7_parse_timestamp_cases.2.2.1 "2:05" 2 5 (by decide)
  exact h.trans (by decide)

/-! ## Digit rendering lemmas -/

theorem digitOfNat_facts (d : Nat) (h : d < 10) : digitCharFacts (digitOfNat d) := by
  interval_cases d <;>
    exact ⟨by decide, by decide, by decide, by decide, by decide⟩

theorem digitVal_digitOfNat (d : Nat) (h : d < 10) : digitVal (digitOfNat d) = d := by
  interval_cases d <;> decide

theorem digitsVal_append_singleton (A : List Char) (c : Char) :
    digitsVal (A ++ [c]) = 10 * digitsVal A + digitVal c := by
  simp only [digitsVal, List.foldl_append, List.foldl_cons, List.foldl_nil]
  omega

theorem digitsVal_cons_zero (cs : List Char) : digitsVal ('0' :: cs) = digitsVal cs := by
  have h : (0 : Nat) * 10 + digitVal '0' = 0 := by decide
  simp only [digitsVal, List.foldl_cons, h]

theorem decDigitsAux_spec (fuel : Nat) : ∀ n : Nat, n < fuel →
    decDigitsAux fuel n ≠ [] ∧ (∀ c ∈ decDigitsAux fuel n, digitCharFacts c) ∧
    digitsVal (decDigitsAux fuel n) = n := by
  induction fuel with
  | zero => intro n h; omega
  | succ fuel ih =>
    intro n h
    by_cases h10 : n < 10
    · simp only [decDigitsAux, if_pos h10]
      refine ⟨by simp, ?_, ?_⟩
      · intro c hc
        rw [List.mem_singleton] at hc
        subst hc
        exact digitOfNat_facts n h10
      · have h1 : (0 : Nat) * 10 + digitVal (digitOfNat n) = n := by
          rw [digitVal_digitOfNat n h10]; omega
        simp only [digitsVal, List.foldl_cons, List.foldl_nil, h1]
    · have hd : n / 10 < fuel := by
        have := Nat.div_lt_self (by omega : 0 < n) (by omega : 1 < 10)
        omega
      obtain ⟨hne, hfacts, hval⟩ := ih (n / 10) hd
      simp only [decDigitsAux, if_neg h10]
      refine ⟨by simp, ?_, ?_⟩
      · intro c hc
        rcases List.mem_append.mp hc with hc | hc
        · exact hfacts c hc
        · rw [List.mem_singleton] at hc
          subst hc
          exact digitOfNat_facts _ (Nat.mod_lt _ (by omega))
      · rw [digitsVal_append_singleton, hval,
          digitVal_digitOfNat _ (Nat.mod_lt _ (by omega))]
        omega

theorem trimChars_eq_self (cs : List Char) (h : ∀ c ∈ cs, c.isWhitespace = false) :
    trimChars cs = cs := by
  have key : ∀ ds : List Char, (∀ c ∈ ds, c.isWhitespace = false) →
      ds.dropWhile Char.isWhitespace = ds := by
    intro ds hds
    cases ds with
    | nil => rfl
    | cons c rest => simp [List.dropWhile_cons, hds c (List.mem_cons_self c rest)]
  unfold trimChars
  rw [key cs h, key _ (fun c hc => h c (List.mem_reverse.mp hc)), List.reverse_reverse]

theorem pyIntOf_digits (cs : List Char) (hne : cs ≠ [])
    (h : ∀ c ∈ cs, digitCharFacts c) : pyIntOf cs = some ((digitsVal cs : Nat) : Int) := by
  have hws : ∀ c ∈ cs, c.isWhitespace = false := fun c hc => (h c hc).2.1
  obtain ⟨c, rest, rfl⟩ : ∃ c rest, cs = c :: rest := by
    cases cs with
    | nil => exact absurd rfl hne
    | cons c rest => exact ⟨c, rest, rfl⟩
  have hc := h c (List.mem_cons_self c rest)
  have hall : (c :: rest).all Char.isDigit = true := by
    rw [List.all_eq_true]
    intro x hx
    exact (h x hx).1
  unfold pyIntOf
  rw [trimChars_eq_self _ hws]
  simp [hc.2.2.2.1, hc.2.2.2.2, hall]

theorem intReprChars_ofNat (k : Nat) : intReprChars (k : Int) = decDigitsAux (k + 1) k := by
  unfold intReprChars
  rw [if_neg (by omega : ¬ (k : Int) < 0)]
  simp

theorem pad2Chars_ofNat_facts (k : Nat) :
    pad2Chars (k : Int) ≠ [] ∧ (∀ c ∈ pad2Chars (k : Int), digitCharFacts c) ∧
    digitsVal (pad2Chars (k : Int)) = k := by
  obtain ⟨hne, hfacts, hval⟩ := decDigitsAux_spec (k + 1) k (by omega)
  unfold pad2Chars
  rw [intReprChars_ofNat]
  by_cases hl : (decDigitsAux (k + 1) k).length < 2
  · rw [if_pos hl]
    refine ⟨by simp, ?_, ?_⟩
    · intro c hc
      rcases List.mem_cons.mp hc with rfl | hc
      · exact ⟨by decide, by decide, by decide, by decide, by decide⟩
      · exact hfacts c hc
    · rw [digitsVal_cons_zero, hval]
  · rw [if_neg hl]
    exact ⟨hne, hfacts, hval⟩

theorem pyIntOf_pad2 (k : Nat) : pyIntOf (pad2Chars (k : Int)) = some ((k : Nat) : Int) := by
  obtain ⟨hne, hfacts, hval⟩ := pad2Chars_ofNat_facts k
  rw [pyIntOf_digits _ hne hfacts, hval]

theorem pad2Chars_ofNat_no_colon (k : Nat) : ∀ c ∈ pad2Chars (k : Int), c ≠ ':' :=
  fun c hc => ((pad2Chars_ofNat_facts k).2.1 c hc).2.2.1

/-! ## `splitCharsOn` lemmas -/

theorem splitCharsOn_ne_nil (sep : Char) (cs : List Char) : splitCharsOn sep cs ≠ [] := by
  cases cs with
  | nil => simp [splitCharsOn]
  | cons c rest =>
    cases h : splitCharsOn sep rest with
    | nil => simp [splitCharsOn, h]
    | cons g gs =>
      simp only [splitCharsOn, h]
      split <;> simp

theorem splitCharsOn_cons_sep (sep : Char) (B : List Char) :
    splitCharsOn sep (sep :: B) = [] :: splitCharsOn sep B := by
  obtain ⟨g, gs, h⟩ := List.exists_cons_of_ne_nil (splitCharsOn_ne_nil sep B)
  simp only [splitCharsOn, h]
  simp

theorem splitCharsOn_cons_ne (sep c : Char) (B : List Char) (hc : c ≠ sep)
    (g : List Char) (gs : List (List Char)) (h : splitCharsOn sep B = g :: gs) :
    splitCharsOn sep (c :: B) = (c :: g) :: gs := by
  simp only [splitCharsOn, h]
  simp [hc]

theorem splitCharsOn_append (sep : Char) (A B : List Char) (h : ∀ c ∈ A, c ≠ sep) :
    splitCharsOn sep (A ++ sep :: B) = A :: splitCharsOn sep B := by
  induction A with
  | nil => simpa using splitCharsOn_cons_sep sep B
  | cons c A ih =>
    have hc : c ≠ sep := h c (List.mem_cons_self c A)
    have ihh := ih (fun x hx => h x (List.mem_cons_of_mem c hx))
    simpa using splitCharsOn_cons_ne sep c (A ++ sep :: B) hc A (splitCharsOn sep B) ihh

theorem splitCharsOn_of_no_sep (sep : Char) (A : List Char) (h : ∀ c ∈ A, c ≠ sep) :
    splitCharsOn sep A = [A] := by
  induction A with
  | nil => rfl
  | cons c A ih =>
    have hc : c ≠ sep := h c (List.mem_cons_self c A)
    simpa using splitCharsOn_cons_ne sep c A hc A []
      (ih (fun x hx => h x (List.mem_cons_of_mem c hx)))

theorem parse_mk_two (A B : List Char) (a b : Int)
    (hA : pyIntOf A = some a) (hB : pyIntOf B = some b)
    (hAc : ∀ c ∈ A, c ≠ ':') (hBc : ∀ c ∈ B, c ≠ ':') :
    parse_timestamp_to_seconds (String.mk (A ++ ':' :: B)) = some (a * 60 + b) := by
  have hs : splitCharsOn ':' (String.mk (A ++ ':' :: B)).data = [A, B] := by
    show splitCharsOn ':' (A ++ ':' :: B) = [A, B]
    rw [splitCharsOn_append _ _ _ hAc, splitCharsOn_of_no_sep _ _ hBc]
  unfold parse_timestamp_to_seconds
  rw [hs]
  simp [mapIntParts, hA, hB]

theorem parse_mk_three (A B C : List Char) (a b c : Int)
    (hA : pyIntOf A = some a) (hB : pyIntOf B = some b) (hC : pyIntOf C = some c)
    (hAc : ∀ x ∈ A, x ≠ ':') (hBc : ∀ x ∈ B, x ≠ ':') (hCc : ∀ x ∈ C, x ≠ ':') :
    parse_timestamp_to_seconds (String.mk (A ++ ':' :: (B ++ ':' :: C)))
      = some (a * 3600 + b * 60 + c) := by
  have hs : splitCharsOn ':' (String.mk (A ++ ':' :: (B ++ ':' :: C))).data = [A, B, C] := by
    show splitCharsOn ':' (A ++ ':' :: (B ++ ':' :: C)) = [A, B, C]
    rw [splitCharsOn_append _ _ _ hAc, splitCharsOn_append _ _ _ hBc,
      splitCharsOn_of_no_sep _ _ hCc]
  unfold parse_timestamp_to_seconds
  rw [hs]
  simp [mapIntParts, hA, hB, hC]

/-! ## Claim 4: the parse/format round-trip law -/

/-- C4: for every non-negative `n`, parsing the formatter's rendering of
`n` (brackets stripped) gives back `n`. -/
theorem claim4_roundtrip (n : Nat) :
    formatFromSeconds (n : Int) = "[" ++ formatBody (n : Int) ++ "]" ∧
    parse_timestamp_to_seconds (formatBody (n : Int)) = some (n : Int) := by
  have hdiv : ((n : Int)).fdiv 3600 = ((n / 3600 : Nat) : Int) := by
    rw [Int.fdiv_eq_ediv _ (by omega)]; omega
  have hmod : ((n : Int)).fmod 3600 = ((n % 3600 : Nat) : Int) := by
    rw [Int.fmod_eq_emod _ (by omega)]; omega
  have hdiv60 : (((n % 3600 : Nat) : Int)).fdiv 60 = ((n % 3600 / 60 : Nat) : Int) := by
    rw [Int.fdiv_eq_ediv _ (by omega)]; omega
  have hmod60 : ((n : Int)).fmod 60 = ((n % 60 : Nat) : Int) := by
    rw [Int.fmod_eq_emod _ (by omega)]; omega
  refine ⟨rfl, ?_⟩
  simp only [formatBody, formatBodyChars]
  rw [hdiv, hmod, hdiv60, hmod60]
  by_cases hh : 0 < n / 3600
  · rw [if_pos (show (0 : Int) < ((n / 3600 : Nat) : Int) by exact_mod_cast hh)]
    simp only [List.append_assoc, List.cons_append]
    rw [parse_mk_three _ _ _ _ _ _ (pyIntOf_pad2 (n / 3600)) (pyIntOf_pad2 (n % 3600 / 60))
      (pyIntOf_pad2 (n % 60)) (pad2Chars_ofNat_no_colon _) (pad2Chars_ofNat_no_colon _)
      (pad2Chars_ofNat_no_colon _)]
    congr 1
    push_cast
    omega
  · rw [if_neg (show ¬ (0 : Int) < ((n / 3600 : Nat) : Int) by exact_mod_cast hh)]
    rw [parse_mk_two _ _ _ _ (pyIntOf_pad2 (n % 3600 / 60)) (pyIntOf_pad2 (n % 60))
      (pad2Chars_ofNat_no_colon _) (pad2Chars_ofNat_no_colon _)]
    congr 1
    push_cast
    omega

/-! ## Claim 8: the formatter's field padding -/

/-- C8 counterexample: at 3723 seconds the hour field is *zero-padded*,
`[01:02:03]`, not the claimed unpadded `[1:02:03]`. -/
theorem claim8_cex :
    formatFromSeconds 3723 = "[01:02:03]" ∧ formatFromSeconds 3723 ≠ "[1:02:03]" :=
  ⟨by decide, by decide⟩

/-- C8 as amended: the formatter renders `[H:M:S]` fields when hours are
positive and `[M:S]` fields otherwise, with *every* field - the hour
field included - going through the width-2 zero-padding `f"{x:02d}"`
(values below 10 get a leading zero; values of 10 or more are rendered
unpadded). -/
theorem claim8_amended (total : Int) (h0 : 0 ≤ total) :
    (total.fdiv 3600 = 0 →
      formatFromSeconds total
        = String.mk ('[' :: pad2Chars ((total.fmod 3600).fdiv 60)
            ++ ':' :: pad2Chars (total.fmod 60) ++ [']'])) ∧
    (0 < total.fdiv 3600 →
      formatFromSeconds total
        = String.mk ('[' :: pad2Chars (total.fdiv 3600)
            ++ ':' :: pad2Chars ((total.fmod 3600).fdiv 60)
            ++ ':' :: pad2Chars (total.fmod 60) ++ [']'])) ∧
    (∀ x : Int, 0 ≤ x → x < 10 → pad2Chars x = '0' :: intReprChars x) ∧
    (∀ x : Int, 10 ≤ x → pad2Chars x = intReprChars x) := by
  refine ⟨?_, ?_, ?_, ?_⟩
  · intro hh
    simp only [formatFromSeconds, formatBodyChars]
    rw [if_neg (by omega : ¬ (0 : Int) < total.fdiv 3600)]
    simp [List.append_assoc]
  · intro hh
    simp only [formatFromSeconds, formatBodyChars]
    rw [if_pos hh]
    simp [List.append_assoc]
  · intro x hx0 hx10
    have ht : x.toNat < 10 := by omega
    unfold pad2Chars
    rw [if_pos]
    unfold intReprChars
    rw [if_neg (by omega : ¬ x < 0)]
    simp [decDigitsAux, if_pos ht]
  · intro x hx
    have ht : 10 ≤ x.toNat := by omega
    have hstep : decDigitsAux (x.toNat + 1) x.toNat
        = decDigitsAux x.toNat (x.toNat / 10) ++ [digitOfNat (x.toNat % 10)] := by
      simp [decDigitsAux, if_neg (by omega : ¬ x.toNat < 10)]
    have hne := (decDigitsAux_spec x.toNat (x.toNat / 10)
      (Nat.div_lt_self (by omega) (by omega))).1
    have hlen := List.length_pos.mpr hne
    unfold pad2Chars
    rw [if_neg]
    unfold intReprChars
    rw [if_neg (by omega : ¬ x < 0), hstep]
    simp only [List.length_append, List.length_cons, List.length_nil]
    omega

/-- Witness for C8 (amended) at 3723 seconds. -/
theorem claim8_amended_witness : formatFromSeconds 3723 = "[01:02:03]" := by
  have h := (claim8_amended 3723 (by decide)).2.1 (by decide)
  exact h.trans (by decide)

/-! ## Claim 3: the concrete two-chunk stitch example -/

/-- C3 counterexample: on the spec's two-chunk example the offset rewrite
zero-pads every field (`[00:50] y`, `[01:10] z`, and even the first
chunk's `[0:00] x` becomes `[00:00] x`), no rewritten line textually
duplicates an earlier line, and the stitched output is the four-line
text - not the claimed `"[0:00] x\n[0:30] y\n[1:10] z"`. -/
theorem claim3_cex :
    adjust_transcript_timestamps "[0:00] x\n[0:30] y" 0 = some "[00:00] x\n[00:30] y" ∧
    adjust_transcript_timestamps "[0:20] y\n[0:40] z" 30 = some "[00:50] y\n[01:10] z" ∧
    stitchTranscripts ["[00:00] x\n[00:30] y", "[00:50] y\n[01:10] z"]
      = "[00:00] x\n[00:30] y\n[00:50] y\n[01:10] z" ∧
    "[00:50] y\n[01:10] z" ≠ "[0:50] y\n[1:10] z" ∧
    "[00:00] x\n[00:30] y\n[00:50] y\n[01:10] z" ≠ "[0:00] x\n[0:30] y\n[1:10] z" := by
  refine ⟨by decide, by decide, by decide, by decide, by decide⟩

/-- C3 as amended: the rewrite of the second chunk yields `[00:50] y` and
`[01:10] z` (zero-padded), the first chunk is re-rendered as
`[00:00] x` / `[00:30] y`, no line is dropped (no exact duplicate
exists), and stitching produces the four-line text. -/
theorem claim3_amended :
    adjust_transcript_timestamps "[0:00] x\n[0:30] y" 0 = some "[00:00] x\n[00:30] y" ∧
    adjust_transcript_timestamps "[0:20] y\n[0:40] z" 30 = some "[00:50] y\n[01:10] z" ∧
    newLinesOf (pyLines "[00:00] x\n[00:30] y") "[00:50] y\n[01:10] z"
      = ["[00:50] y", "[01:10] z"] ∧
    stitchTranscripts ["[00:00] x\n[00:30] y", "[00:50] y\n[01:10] z"]
      = "[00:00] x\n[00:30] y\n[00:50] y\n[01:10] z" := by
  refine ⟨by decide, by decide, by decide, by decide⟩

/-! ## Claim 10: deduplication acts across chunks, never within one -/

theorem count_filter_eq_zero_or_self (p : String → Bool) (L : List String) (l : String) :
    (p l → (L.filter p).count l = L.count l) ∧ (p l = false → (L.filter p).count l = 0) := by
  constructor
  · intro hp
    exact List.count_filter hp
  · intro hp
    rw [List.count_eq_zero]
    intro hmem
    exact absurd ((List.mem_filter.mp hmem).2) (by simp [hp])

/-- Generalized invariant of the stitching loop, over an arbitrary initial
seen-set `prev`: a line already seen (in `prev` or kept by an earlier
chunk) is dropped from chunk `i` entirely; a line never seen before is
kept with its full within-chunk multiplicity. -/
theorem stitchKept_drop_keep (ts : List String) :
    ∀ (prev : List String) (i : Nat), i < ts.length → ∀ l : String,
      ((l ∈ prev ∨ ∃ j, j < i ∧ l ∈ (stitchKept prev ts).getD j []) →
        l ∉ (stitchKept prev ts).getD i []) ∧
      ((l ∉ prev ∧ ∀ j, j < i → l ∉ (stitchKept prev ts).getD j []) →
        ((stitchKept prev ts).getD i []).count l = (pyLines (ts.getD i "")).count l) := by
  induction ts with
  | nil =>
    intro prev i hi
    simp at hi
  | cons t rest ih =>
    intro prev i hi l
    cases i with
    | zero =>
      simp only [stitchKept, List.getD_cons_zero]
      constructor
      · rintro (h | ⟨j, hj, _⟩)
        · simp only [newLinesOf, List.mem_filter]
          rintro ⟨_, hco⟩
          simp [h] at hco
        · omega
      · rintro ⟨hp, _⟩
        exact (count_filter_eq_zero_or_self _ _ _).1 (by simp [hp])
    | succ i =>
      simp only [stitchKept, List.getD_cons_succ]
      have key := ih (prev ++ newLinesOf prev t) i (by simpa using hi) l
      constructor
      · rintro (h | ⟨j, hj, hjmem⟩)
        · exact key.1 (Or.inl (List.mem_append.mpr (Or.inl h)))
        · cases j with
          | zero =>
            simp only [List.getD_cons_zero] at hjmem
            exact key.1 (Or.inl (List.mem_append.mpr (Or.inr hjmem)))
          | succ j =>
            simp only [List.getD_cons_succ] at hjmem
            exact key.1 (Or.inr ⟨j, by omega, hjmem⟩)
      · rintro ⟨hp, hall⟩
        apply key.2
        refine ⟨?_, ?_⟩
        · intro hmem
          rcases List.mem_append.mp hmem with h | h
          · exact hp h
          · exact hall 0 (by omega) (by simpa using h)
        · intro j hj hmem
          exact hall (j + 1) (by omega) (by simpa using hmem)

/-- C10: in stitching, a line of chunk `i` is dropped exactly when it
textually equals a line kept from an earlier chunk `j < i`; otherwise it
is kept with its full within-chunk multiplicity (identical lines inside
one chunk are all kept), and the output is the concatenation of the kept
lines. -/
theorem claim10_stitch_dedup (chunks : List String) (i : Nat)
    (hi : i < chunks.length) (l : String) :
    ((∃ j, j < i ∧ l ∈ (stitchKept [] chunks).getD j []) →
      l ∉ (stitchKept [] chunks).getD i []) ∧
    ((∀ j, j < i → l ∉ (stitchKept [] chunks).getD j []) →
      ((stitchKept [] chunks).getD i []).count l = (pyLines (chunks.getD i "")).count l) ∧
    stitchTranscripts chunks = String.intercalate "\n" (stitchKept [] chunks).flatten := by
  have h := stitchKept_drop_keep chunks [] i hi l
  exact ⟨fun hj => h.1 (Or.inr hj), fun hall => h.2 ⟨by simp, hall⟩, rfl⟩

/-- Witness for C10: chunks `"a\nb"` and `"b\nc\nc"`; the duplicate-across
line `b` is dropped from chunk 1, while the within-chunk duplicate `c`
keeps both copies. -/
theorem claim10_witness :
    ¬ "b" ∈ (stitchKept [] ["a\nb", "b\nc\nc"]).getD 1 [] ∧
    ((stitchKept [] ["a\nb", "b\nc\nc"]).getD 1 []).count "c"
      = (pyLines "b\nc\nc").count "c" := by
  constructor
  · exact (claim10_stitch_dedup ["a\nb", "b\nc\nc"] 1 (by decide) "b").1 ⟨0, by decide, by decide⟩
  · exact (claim10_stitch_dedup ["a\nb", "b\nc\nc"] 1 (by decide) "c").2.1 (by decide)

/-! ## Claim 5: the extractor keeps exactly the in-window marker lines -/

theorem isDigit_charFacts (c : Char) (h : c.isDigit = true) : digitCharFacts c := by
  refine ⟨h, ?_, ?_, ?_, ?_⟩
  · cases hw : c.isWhitespace
    · rfl
    · exfalso
      have hw' : ((c = ' ' ∨ c = '\t') ∨ c = '\r') ∨ c = '\n' := by
        simpa [Char.isWhitespace] using hw
      rcases hw' with ((rfl | rfl) | rfl) | rfl <;> exact absurd h (by decide)
  · rintro rfl; exact absurd h (by decide)
  · rintro rfl; exact absurd h (by decide)
  · rintro rfl; exact absurd h (by decide)

theorem tsTailMatch_parses (ds : List Char) (m1 m2 : Char) (rest g r : List Char)
    (hne : ds ≠ []) (hds : ∀ c ∈ ds, digitCharFacts c)
    (hm1 : m1.isDigit = true) (hm2 : m2.isDigit = true)
    (h : tsTailMatch ds m1 m2 rest = some (g, r)) :
    ∃ v, parse_timestamp_to_seconds (String.mk g) = some v := by
  have hA := pyIntOf_digits ds hne hds
  have hAc : ∀ c ∈ ds, c ≠ ':' := fun c hc => (hds c hc).2.2.1
  have hBfacts : ∀ c ∈ [m1, m2], digitCharFacts c := by
    intro c hc
    rcases List.mem_pair.mp hc with rfl | rfl
    · exact isDigit_charFacts _ hm1
    · exact isDigit_charFacts _ hm2
  have hB := pyIntOf_digits [m1, m2] (by simp) hBfacts
  have hBc : ∀ c ∈ [m1, m2], c ≠ ':' := fun c hc => (hBfacts c hc).2.2.1
  unfold tsTailMatch at h
  split at h
  · rename_i s1 s2 r2
    split at h
    · rename_i hcond
      obtain ⟨hs1, hs2⟩ : s1.isDigit = true ∧ s2.isDigit = true := by
        simpa [Bool.and_eq_true] using hcond
      simp only [Option.some.injEq, Prod.mk.injEq] at h
      obtain ⟨hg, _⟩ := h
      subst hg
      have hCfacts : ∀ c ∈ [s1, s2], digitCharFacts c := by
        intro c hc
        rcases List.mem_pair.mp hc with rfl | rfl
        · exact isDigit_charFacts _ hs1
        · exact isDigit_charFacts _ hs2
      have hC := pyIntOf_digits [s1, s2] (by simp) hCfacts
      have hCc : ∀ c ∈ [s1, s2], c ≠ ':' := fun c hc => (hCfacts c hc).2.2.1
      exact ⟨_, by simpa using parse_mk_three ds [m1, m2] [s1, s2] _ _ _ hA hB hC hAc hBc hCc⟩
    · exact absurd h (by simp)
  · rename_i r2
    simp only [Option.some.injEq, Prod.mk.injEq] at h
    obtain ⟨hg, _⟩ := h
    subst hg
    exact ⟨_, by simpa using parse_mk_two ds [m1, m2] _ _ hA hB hAc hBc⟩
  · exact absurd h (by simp)

theorem matchTsAfterBracket_parses (cs g r : List Char)
    (h : matchTsAfterBracket cs = some (g, r)) :
    ∃ v, parse_timestamp_to_seconds (String.mk g) = some v := by
  unfold matchTsAfterBracket at h
  split at h
  · rename_i c1 c2 rest2
    by_cases hc2 : c2 = ':'
    · rw [if_pos hc2] at h
      split at h
      · rename_i m1 m2 rest
        split at h
        · rename_i hcond
          obtain ⟨⟨h1, h2⟩, h3⟩ :
              (c1.isDigit = true ∧ m1.isDigit = true) ∧ m2.isDigit = true := by
            simpa [Bool.and_eq_true] using hcond
          refine tsTailMatch_parses [c1] m1 m2 rest g r (by simp) ?_ h2 h3 h
          intro c hc
          rw [List.mem_singleton] at hc
          subst hc
          exact isDigit_charFacts _ h1
        · exact absurd h (by simp)
      · exact absurd h (by simp)
    · rw [if_neg hc2] at h
      split at h
      · rename_i c3 m1 m2 rest
        split at h
        · split at h
          · rename_i hcond
            obtain ⟨⟨⟨h1, h2⟩, h3⟩, h4⟩ :
                ((c1.isDigit = true ∧ c2.isDigit = true) ∧ m1.isDigit = true) ∧
                  m2.isDigit = true := by
              simpa [Bool.and_eq_true] using hcond
            refine tsTailMatch_parses [c1, c2] m1 m2 rest g r (by simp) ?_ h3 h4 h
            intro c hc
            rcases List.mem_pair.mp hc with rfl | rfl
            · exact isDigit_charFacts _ h1
            · exact isDigit_charFacts _ h2
          · exact absurd h (by simp)
        · exact absurd h (by simp)
      · exact absurd h (by simp)
  · exact absurd h (by simp)

theorem leadingMarker_parses (cs g : List Char) (h : leadingMarker cs = some g) :
    ∃ v, parse_timestamp_to_seconds (String.mk g) = some v := by
  unfold leadingMarker at h
  split at h
  · rename_i rest
    cases hm : matchTsAfterBracket rest with
    | none => rw [hm] at h; exact absurd h (by simp)
    | some p =>
      obtain ⟨g', r⟩ := p
      rw [hm] at h
      simp only [Option.map_some', Option.some.injEq] at h
      subst h
      exact matchTsAfterBracket_parses rest g' r hm
  · exact absurd h (by simp)

theorem segmentLinesLoop_eq_filter (st en : Int) (lines : List String) :
    segmentLinesLoop st en lines = some (lines.filter (lineInWindow st en)) := by
  induction lines with
  | nil => rfl
  | cons line rest ih =>
    cases hm : leadingMarker line.data with
    | none =>
      have hw : lineInWindow st en line = false := by simp [lineInWindow, hm]
      simp only [segmentLinesLoop, hm, ih, List.filter_cons, hw]
      simp
    | some g =>
      obtain ⟨v, hv⟩ := leadingMarker_parses line.data g hm
      have hw : lineInWindow st en line = (decide (st ≤ v) && decide (v ≤ en)) := by
        simp [lineInWindow, hm, hv]
      simp only [segmentLinesLoop, hm, hv, ih]
      by_cases hcond : st ≤ v ∧ v ≤ en
      · rw [if_pos hcond]
        simp [List.filter_cons, hw, hcond.1, hcond.2]
      · rw [if_neg hcond]
        have hb : (decide (st ≤ v) && decide (v ≤ en)) = false := by
          rw [Bool.and_eq_false_iff]
          by_cases h1 : st ≤ v
          · right; simpa using fun h2 => hcond ⟨h1, h2⟩
          · left; simpa using h1
        simp [List.filter_cons, hw, hb]

/-- C5: the extraction loop keeps exactly the lines whose leading
bracketed marker parses into the inclusive window `[start, end]`,
preserving order and multiplicity; marker-less lines are never kept; and
when no line is in the window the joined result is the empty text, not
an error. -/
theorem claim5_extractor (raw : String) (st en : Int) (h : st ≤ en) :
    segmentLinesLoop st en (pyLines raw) = some ((pyLines raw).filter (lineInWindow st en)) ∧
    (∀ line ∈ (pyLines raw).filter (lineInWindow st en), (leadingMarker line.data).isSome) ∧
    ((∀ line ∈ pyLines raw, lineInWindow st en line = false) →
      extractSegmentText raw st en = some "") := by
  refine ⟨segmentLinesLoop_eq_filter st en _, ?_, ?_⟩
  · intro line hline
    have hmem := (List.mem_filter.mp hline).2
    unfold lineInWindow at hmem
    cases hm : leadingMarker line.data with
    | none => rw [hm] at hmem; simp at hmem
    | some g => simp
  · intro hnone
    unfold extractSegmentText
    rw [segmentLinesLoop_eq_filter]
    have hnil : (pyLines raw).filter (lineInWindow st en) = [] := by
      rw [List.filter_eq_nil_iff]
      intro a ha
      simp [hnone a ha]
    rw [hnil]
    rfl

/-- Witness for C5 at the spec's example: lines at 0:10, 0:50, 2:00 with
window `[0, 60]` keep exactly the first two. -/
theorem claim5_witness :
    segmentLinesLoop 0 60 (pyLines "[0:10] a\n[0:50] b\n[2:00] c")
      = some ["[0:10] a", "[0:50] b"] := by
  have h := (claim5_extractor "[0:10] a\n[0:50] b\n[2:00] c" 0 60 (by decide)).1
  exact h.trans (by decide)

/-! ## Claims 6 and 9: `parse_input` -/

theorem parse_input_aux_some (lines : List (List Char)) :
    ∀ (u : List Char) (acc : List TimestampInfo),
      parse_input_aux (some u) acc lines
        = (some u,
           acc ++ recordsOfLines ((lines.map trimChars).filter (fun l => !l.isEmpty))) := by
  induction lines with
  | nil => intro u acc; simp [parse_input_aux, recordsOfLines]
  | cons line rest ih =>
    intro u acc
    by_cases he : (trimChars line).isEmpty = true
    · simp [parse_input_aux, he, ih, List.filter_cons]
    · cases hs : searchUrl (trimChars line) with
      | none =>
        cases ht : timestampMatch (trimChars line) with
        | none =>
          simp [parse_input_aux, he, hs, ht, ih, List.filter_cons, recordsOfLines,
            List.filterMap_cons]
        | some g =>
          simp [parse_input_aux, he, hs, ht, ih, List.filter_cons, recordsOfLines,
            List.filterMap_cons]
      | some u2 =>
        cases ht : timestampMatch (trimChars line) with
        | none =>
          simp [parse_input_aux, he, hs, ht, ih, List.filter_cons, recordsOfLines,
            List.filterMap_cons]
        | some g =>
          simp [parse_input_aux, he, hs, ht, ih, List.filter_cons, recordsOfLines,
            List.filterMap_cons]

theorem parse_input_aux_none (lines : List (List Char)) :
    ∀ acc : List TimestampInfo,
      parse_input_aux none acc lines
        = (firstUrlMatch ((lines.map trimChars).filter (fun l => !l.isEmpty)),
           acc ++ recordsOfLines
             (dropFirstUrlLine ((lines.map trimChars).filter (fun l => !l.isEmpty)))) := by
  induction lines with
  | nil => intro acc; simp [parse_input_aux, firstUrlMatch, dropFirstUrlLine, recordsOfLines]
  | cons line rest ih =>
    intro acc
    by_cases he : (trimChars line).isEmpty = true
    · simp [parse_input_aux, he, ih, List.filter_cons]
    · cases hs : searchUrl (trimChars line) with
      | some u =>
        simp [parse_input_aux, he, hs, parse_input_aux_some, List.filter_cons,
          firstUrlMatch, dropFirstUrlLine]
      | none =>
        cases ht : timestampMatch (trimChars line) with
        | none =>
          simp [parse_input_aux, he, hs, ht, ih, List.filter_cons, firstUrlMatch,
            dropFirstUrlLine, recordsOfLines, List.filterMap_cons]
        | some g =>
          simp [parse_input_aux, he, hs, ht, ih, List.filter_cons, firstUrlMatch,
            dropFirstUrlLine, recordsOfLines, List.filterMap_cons]

/-- C6 counterexample: after the URL is consumed from the first line, a
later URL-containing line is *not* ignored: `"1:30 - https://b.com"`
still matches the timestamp pattern and is added as a record (with the
URL inside its description). -/
theorem claim6_cex :
    parse_input "https://a.com\n1:30 - https://b.com"
      = (some "https://a.com", [⟨"1:30", "https://b.com"⟩]) ∧
    (searchUrl (trimChars ("1:30 - https://b.com").data)).isSome = true :=
  ⟨by decide, by decide⟩

/-- C6 as amended: the URL is the first match among the stripped
non-empty lines; the consumed line contributes no record (so no line is
both the URL and a record); every *other* line - later URL-containing
lines included - is tested against the timestamp pattern and contributes
a record exactly when it matches. -/
theorem claim6_parse_input (text : String) :
    parse_input text
      = ((firstUrlMatch (processedLines text)).map String.mk,
         recordsOfLines (dropFirstUrlLine (processedLines text))) := by
  unfold parse_input processedLines
  rw [parse_input_aux_none]
  simp

/-- The timestamps `parse_input` can produce: group 1 of its anchored
regex, i.e. exactly `\d{1,2}:\d{2}`. -/
theorem timestampMatch_shape (cs : List Char) (g : List Char × Option (List Char))
    (h : timestampMatch cs = some g) :
    shortTsShape (recordOfGroups g).timestamp = true := by
  unfold timestampMatch at h
  split at h
  · rename_i c1 c2 rest2
    by_cases hc2 : c2 = ':'
    · rw [if_pos hc2] at h
      split at h
      · rename_i m1 m2 rest
        split at h
        · rename_i hcond
          obtain ⟨⟨h1, h2⟩, h3⟩ :
              (c1.isDigit = true ∧ m1.isDigit = true) ∧ m2.isDigit = true := by
            simpa [Bool.and_eq_true] using hcond
          simp only [Option.some.injEq] at h
          subst h
          have htrim : trimChars [c1, ':', m1, m2] = [c1, ':', m1, m2] := by
            apply trimChars_eq_self
            intro c hc
            simp at hc
            rcases hc with rfl | rfl | rfl | rfl
            · exact (isDigit_charFacts _ h1).2.1
            · decide
            · exact (isDigit_charFacts _ h2).2.1
            · exact (isDigit_charFacts _ h3).2.1
          simp [recordOfGroups, htrim, shortTsShape, h1, h2, h3]
        · exact absurd h (by simp)
      · exact absurd h (by simp)
    · rw [if_neg hc2] at h
      split at h
      · rename_i c3 m1 m2 rest
        split at h
        · split at h
          · rename_i hcond
            obtain ⟨⟨⟨h1, h2⟩, h3⟩, h4⟩ :
                ((c1.isDigit = true ∧ c2.isDigit = true) ∧ m1.isDigit = true) ∧
                  m2.isDigit = true := by
              simpa [Bool.and_eq_true] using hcond
            simp only [Option.some.injEq] at h
            subst h
            have htrim : trimChars [c1, c2, ':', m1, m2] = [c1, c2, ':', m1, m2] := by
              apply trimChars_eq_self
              intro c hc
              simp at hc
              rcases hc with rfl | rfl | rfl | rfl | rfl
              · exact (isDigit_charFacts _ h1).2.1
              · exact (isDigit_charFacts _ h2).2.1
              · decide
              · exact (isDigit_charFacts _ h3).2.1
              · exact (isDigit_charFacts _ h4).2.1
            simp [recordOfGroups, htrim, shortTsShape, h1, h2, h3, h4]
          · exact absurd h (by simp)
        · exact absurd h (by simp)
      · exact absurd h (by simp)
  · exact absurd h (by simp)

/-- C9: every record `parse_input` returns has a two-field
`\d{1,2}:\d{2}` timestamp - never `H:MM:SS`; in particular the line
`"1:02:03 - talk"` yields the single record `("1:02", "")`, the trailing
`:03` and the dash-description being discarded because the optional
`\s*-\s*` tail fails to match at `":03 - talk"`. -/
theorem claim9_short_timestamps :
    (∀ (text : String), ∀ r ∈ (parse_input text).2, shortTsShape r.timestamp = true) ∧
    parse_input "1:02:03 - talk" = (none, [⟨"1:02", ""⟩]) := by
  constructor
  · intro text r hr
    unfold parse_input at hr
    rw [parse_input_aux_none] at hr
    simp only [List.nil_append] at hr
    unfold recordsOfLines at hr
    obtain ⟨l, _, hl⟩ := List.mem_filterMap.mp hr
    cases ht : timestampMatch l with
    | none => rw [ht] at hl; exact absurd hl (by simp)
    | some g =>
      rw [ht] at hl
      simp only [Option.map_some', Option.some.injEq] at hl
      subst hl
      exact timestampMatch_shape l g ht
  · decide

/-- Witness for C9 at the record produced from `"1:02:03 - talk"`. -/
theorem claim9_witness : shortTsShape (TimestampInfo.mk "1:02" "").timestamp = true :=
  claim9_short_timestamps.1 "1:02:03 - talk" ⟨"1:02", ""⟩ (by decide)
